import Mathlib

/-!
Verification of the RAG pipeline of the swiss-vot-apertus repository.

The development shallowly embeds the core retrieval code:
* `src/backend/rag.py` — `RAGPipeline.retrieve_context`,
  `retrieve_with_fallback`, `get_initiative_metadata`,
  `format_context_for_llm`, `query_with_context`;
* `src/backend/embeddings.py` — `chunk_text`,
  `prepare_brochure_for_indexing`.

External collaborators (the ChromaDB vector store and the relational
metadata store) are modelled as oracle functions; a raised exception is
modelled as `none`.  Python floats are modelled by `ℚ`; Python `round(x, 4)`
is modelled by exact round-half-to-even on rationals.  Python strings in the
chunker are modelled by `List Char` with Python's negative-index slice and
`rfind` semantics, since the chunker's window start can become negative.
-/

namespace SwissVot

/-- Round-half-to-even to an integer, the rounding mode of Python `round`. -/
def rhe (q : ℚ) : ℤ :=
  if q - ⌊q⌋ < 1/2 then ⌊q⌋
  else if 1/2 < q - ⌊q⌋ then ⌊q⌋ + 1
  else if Even ⌊q⌋ then ⌊q⌋ else ⌊q⌋ + 1

/-- Python `round(q, 4)` modelled exactly on rationals. -/
def round4 (q : ℚ) : ℚ := (rhe (q * 10000) : ℚ) / 10000

/-- Chunk metadata as written by the indexer and read back from the vector
store (`rag.py` accesses `metadata["vote_id"]` and
`metadata.get("initiative_title", ...)`). -/
structure ChunkMeta where
  vote_id : String
  language : String
  chunk_index : Nat
  initiative_title : Option String
deriving DecidableEq

/-- One result row of a vector-store query: parallel entries of the
`ids`/`documents`/`metadatas`/`distances` arrays returned by
`VectorStore.query`. -/
structure Row where
  id : String
  document : String
  metadata : ChunkMeta
  distance : ℚ
deriving DecidableEq

/-- Oracle model of `VectorStore.query` restricted to how `rag.py` calls it:
arguments are the query text, the language filter and `n_results`; `none`
models a raised exception. -/
def VectorStore := String → String → Nat → Option (List Row)

/-- A retrieved context dict as built in `RAGPipeline.retrieve_context`. -/
structure Ctx where
  text : String
  metadata : ChunkMeta
  chunk_id : String
  similarity : ℚ
  distance : ℚ
deriving DecidableEq

/-- `similarity = 1.0 - min(distance, 1.0)` (`rag.py` line 60), before the
4-decimal rounding applied when the dict is built. -/
def simOf (d : ℚ) : ℚ := 1 - min d 1

/-- The context dict built for one result row (`rag.py` lines 63-69):
similarity and distance are reported rounded to 4 decimals. -/
def mkCtx (r : Row) : Ctx :=
  { text := r.document
    metadata := r.metadata
    chunk_id := r.id
    similarity := round4 (simOf r.distance)
    distance := round4 r.distance }

/-- The result-processing loop of `retrieve_context` (`rag.py` lines 54-70):
keep a row iff its unrounded similarity is `≥ score_threshold`. -/
def mkContexts (threshold : ℚ) : List Row → List Ctx
  | [] => []
  | r :: rs =>
    if threshold ≤ simOf r.distance then mkCtx r :: mkContexts threshold rs
    else mkContexts threshold rs

/-- `RAGPipeline.retrieve_context` (`rag.py` lines 24-77): query the vector
store filtered by language; on an exception return `[]`. -/
def retrieve_context (store : VectorStore) (q lang : String) (k : Nat)
    (threshold : ℚ) : List Ctx :=
  match store q lang k with
  | none => []
  | some rows => mkContexts threshold rows

/-- The supported languages in their fixed priority order
(`rag.py` line 107). -/
def supportedLangs : List String := ["de", "fr", "it"]

/-- The fallback `for` loop of `retrieve_with_fallback` (`rag.py` lines
109-118): for each other language request `top_k - len(contexts)` more
results, append them, and break once the total reaches `top_k`. -/
def fallbackLoop (store : VectorStore) (q : String) (k : Nat) :
    List String → List Ctx → List Ctx
  | [], acc => acc
  | l :: rest, acc =>
    let acc2 := acc ++ retrieve_context store q l (k - acc.length) 0
    if k ≤ acc2.length then acc2 else fallbackLoop store q k rest acc2

/-- `RAGPipeline.retrieve_with_fallback` (`rag.py` lines 79-120). -/
def retrieve_with_fallback (store : VectorStore) (q plang : String)
    (k : Nat) : List Ctx :=
  let contexts := retrieve_context store q plang k 0
  let contexts2 :=
    if contexts.length < k / 2 then
      fallbackLoop store q k (supportedLangs.filter (· != plang)) contexts
    else contexts
  contexts2.take k

/-- An initiative row of the relational store (`models.py` fields read in
`get_initiative_metadata`); `schlagwort` may be `NULL`. -/
structure Initiative where
  schlagwort : Option String
  offizieller_titel : String
  abstimmungsdatum : String
  politikbereich : String
  position_bundesrat : String
  parteiparolen : String
  details_url : String
  abstimmungsbuechlein_pdf : String
deriving DecidableEq

/-- The metadata dict built per vote id (`rag.py` lines 142-151). -/
structure InitiativeMeta where
  vote_id : String
  title : String
  date : String
  policy_area : String
  position_bundesrat : String
  parteiparolen : String
  details_url : String
  pdf_url : String
deriving DecidableEq

/-- Oracle model of the metadata store: `none` models the database session
raising (store unreachable); otherwise a keyed lookup that returns `none`
for a missing vote id. -/
def Database := Option (String → Option Initiative)

/-- Python `a or b` on an optional string: `None` and `""` are falsy
(`initiative.schlagwort or initiative.offizieller_titel`, `rag.py` line
144). -/
def pyOr (a : Option String) (b : String) : String :=
  match a with
  | none => b
  | some s => if s = "" then b else s

/-- The metadata dict for one initiative (`rag.py` lines 142-151). -/
def mkInitiativeMeta (vid : String) (ini : Initiative) : InitiativeMeta :=
  { vote_id := vid
    title := pyOr ini.schlagwort ini.offizieller_titel
    date := ini.abstimmungsdatum
    policy_area := ini.politikbereich
    position_bundesrat := ini.position_bundesrat
    parteiparolen := ini.parteiparolen
    details_url := ini.details_url
    pdf_url := ini.abstimmungsbuechlein_pdf }

/-- `RAGPipeline.get_initiative_metadata` (`rag.py` lines 122-156): one
lookup per unique id; a session failure yields the metadata gathered so far,
which is the empty mapping when the session itself cannot be opened. -/
def get_initiative_metadata (db : Database) (vote_ids : List String) :
    List (String × InitiativeMeta) :=
  match db with
  | none => []
  | some lookup =>
    vote_ids.dedup.filterMap fun vid =>
      (lookup vid).map fun ini => (vid, mkInitiativeMeta vid ini)

/-- One step of the grouping dict build of `format_context_for_llm`
(`rag.py` lines 172-177): append to the existing bucket of `vid`, or add a
new bucket at the end (Python dicts preserve insertion order). -/
def addToGroups (vid : String) (c : Ctx) :
    List (String × List Ctx) → List (String × List Ctx)
  | [] => [(vid, [c])]
  | (v, cs) :: rest =>
    if v = vid then (v, cs ++ [c]) :: rest else (v, cs) :: addToGroups vid c rest

/-- `by_initiative`: contexts grouped by `metadata["vote_id"]`, first-seen
order of groups, within-group retrieval order. -/
def groupByVoteId (contexts : List Ctx) : List (String × List Ctx) :=
  contexts.foldl (fun gs c => addToGroups c.metadata.vote_id c gs) []

/-- `chunks[0]["metadata"].get("initiative_title", vote_id)`
(`rag.py` line 182). -/
def groupTitle (vid : String) (chunks : List Ctx) : String :=
  match chunks with
  | [] => vid
  | c :: _ => c.metadata.initiative_title.getD vid

/-- The formatted parts emitted for one group (`rag.py` lines 181-187): a
header line, then each chunk's text followed by an empty line. -/
def groupParts (g : String × List Ctx) : List String :=
  ("\n**Initiative " ++ g.1 ++ ": " ++ groupTitle g.1 g.2 ++ "**\n")
    :: g.2.flatMap (fun c => [c.text, ""])

/-- Python `sep.join(parts)`. -/
def joinSep (sep : String) : List String → String
  | [] => ""
  | [x] => x
  | x :: xs => x ++ sep ++ joinSep sep xs

/-- The sentinel returned for an empty context list (`rag.py` line 169). -/
def noInfoSentinel : String := "Keine relevanten Informationen gefunden."

/-- `RAGPipeline.format_context_for_llm` (`rag.py` lines 158-189). -/
def format_context_for_llm (contexts : List Ctx) : String :=
  if contexts.isEmpty then noInfoSentinel
  else joinSep "\n" ((groupByVoteId contexts).flatMap groupParts)

/-- The result dict of `query_with_context` (`rag.py` lines 228-235). -/
structure RagResult where
  query : String
  language : String
  contexts : List Ctx
  formatted_context : String
  initiative_metadata : List (String × InitiativeMeta)
  num_contexts : Nat
deriving DecidableEq

/-- `RAGPipeline.query_with_context` (`rag.py` lines 191-235). -/
def query_with_context (store : VectorStore) (db : Database)
    (q lang : String) (k : Nat) (include_metadata : Bool) : RagResult :=
  let contexts := retrieve_with_fallback store q lang k
  let vote_ids := contexts.map fun c => c.metadata.vote_id
  let metadata :=
    if include_metadata && !vote_ids.isEmpty
    then get_initiative_metadata db vote_ids else []
  { query := q
    language := lang
    contexts := contexts
    formatted_context := format_context_for_llm contexts
    initiative_metadata := metadata
    num_contexts := contexts.length }

/-! ### The chunker (`embeddings.py`)

Python strings are modelled as `List Char`, and indices as `ℤ`, because the
loop variable `start` of `chunk_text` can become negative; slices and
`str.rfind` follow Python's negative-index and clamping semantics. -/

/-- Resolve a Python slice bound: a negative index counts from the end,
then the result is clamped to `[0, n]`. -/
def pyBound (n : Nat) (i : ℤ) : Nat :=
  if i < 0 then (i + n).toNat else min i.toNat n

/-- Python `s[a:b]`. -/
def pySlice (s : List Char) (a b : ℤ) : List Char :=
  (s.take (pyBound s.length b)).drop (pyBound s.length a)

/-- Python `s.rfind(c, a, b)`: the largest index of `c` in the slice range,
as an absolute index, or `-1` when absent. -/
def pyRfind (s : List Char) (c : Char) (a b : ℤ) : ℤ :=
  let lo := pyBound s.length a
  let hi := pyBound s.length b
  match ((List.range s.length).filter fun j =>
      decide (lo ≤ j) && decide (j < hi) && (s.getD j ' ' == c)).getLast? with
  | some j => (j : ℤ)
  | none => -1

/-- Python `s.strip()`. -/
def pyStrip (s : List Char) : List Char :=
  ((s.dropWhile Char.isWhitespace).reverse.dropWhile Char.isWhitespace).reverse

/-- The window end of one `chunk_text` iteration (`embeddings.py` lines
144-156): the hard boundary `start + chunk_size`, moved back to just after
the last sentence terminator in the window when one occurs past `start` and
the hard boundary has not reached the text end. -/
def chunkEnd (text : List Char) (chunkSize start : ℤ) : ℤ :=
  let e := start + chunkSize
  if e < (text.length : ℤ) then
    let se := max (max (pyRfind text '.' start e) (pyRfind text '!' start e))
      (pyRfind text '?' start e)
    if start < se then se + 1 else e
  else e

/-- The next window start (`embeddings.py` line 163):
`start = end - overlap if end < len(text) else len(text)` — no clamping. -/
def chunkNextStart (text : List Char) (overlap e : ℤ) : ℤ :=
  if e < (text.length : ℤ) then e - overlap else (text.length : ℤ)

/-- Appending the stripped window to the chunk list, dropping empty chunks
(`embeddings.py` lines 158-160). -/
def chunkAppend (text : List Char) (start e : ℤ) (acc : List (List Char)) :
    List (List Char) :=
  let ck := pyStrip (pySlice text start e)
  if ck.isEmpty then acc else acc ++ [ck]

/-- The `while start < len(text)` loop of `chunk_text`, with explicit fuel;
`none` means the fuel was exhausted before the loop finished. -/
def chunkLoop (text : List Char) (chunkSize overlap : ℤ) :
    Nat → ℤ → List (List Char) → Option (List (List Char))
  | 0, _, _ => none
  | fuel + 1, start, acc =>
    if start < (text.length : ℤ) then
      let e := chunkEnd text chunkSize start
      chunkLoop text chunkSize overlap fuel (chunkNextStart text overlap e)
        (chunkAppend text start e acc)
    else some acc

/-- `chunk_text` (`embeddings.py` lines 120-165). -/
def chunk_text (text : List Char) (chunkSize overlap : ℤ) (fuel : Nat) :
    Option (List (List Char)) :=
  if text.isEmpty then some [] else chunkLoop text chunkSize overlap fuel 0 []

/-- `chunk_text` terminates on the given input: some finite fuel suffices
for the `while` loop to exit. -/
def ChunkTextTerminates (text : List Char) (chunkSize overlap : ℤ) : Prop :=
  ∃ fuel, (chunk_text text chunkSize overlap fuel).isSome

/-- `chunk_id = f"{vote_id}_{lang}_{idx}"` (`embeddings.py` line 200). -/
def mkChunkKey (vid lang : String) (idx : Nat) : String :=
  vid ++ "_" ++ lang ++ "_" ++ toString idx

/-- One prepared chunk dict (`embeddings.py` lines 195-201). -/
structure PreparedChunk where
  vote_id : String
  language : String
  chunk_index : Nat
  text : List Char
  chunk_id : String
deriving DecidableEq

/-- The `enumerate(chunks)` loop of `prepare_brochure_for_indexing`
(`embeddings.py` lines 194-201). -/
def prepareEntries (vid lang : String) (chunks : List (List Char)) :
    List PreparedChunk :=
  chunks.enum.map fun p => ⟨vid, lang, p.1, p.2, mkChunkKey vid lang p.1⟩

/-- `prepare_brochure_for_indexing` (`embeddings.py` lines 168-203);
`brochure_texts` is a dict, modelled as an insertion-ordered association
list; empty texts are skipped. -/
def prepare_brochure_for_indexing (vid : String) (chunkSize overlap : ℤ)
    (fuel : Nat) : List (String × List Char) → Option (List PreparedChunk)
  | [] => some []
  | (lang, text) :: rest =>
    if text.isEmpty then prepare_brochure_for_indexing vid chunkSize overlap fuel rest
    else do
      let cks ← chunk_text text chunkSize overlap fuel
      let others ← prepare_brochure_for_indexing vid chunkSize overlap fuel rest
      pure (prepareEntries vid lang cks ++ others)

/-! ### Concrete example inputs used in counterexamples and witnesses -/

/-- The vector store honors `n_results`: each query returns at most the
requested number of rows (the ChromaDB contract). -/
def StoreBounded (store : VectorStore) : Prop :=
  ∀ q lang n rows, store q lang n = some rows → rows.length ≤ n

/-- The vector store returns rows sorted by ascending distance (the ChromaDB
contract: nearest neighbours first). -/
def StoreSorted (store : VectorStore) : Prop :=
  ∀ q lang n rows, store q lang n = some rows →
    rows.Pairwise fun a b => a.distance ≤ b.distance

def metaDe : ChunkMeta := ⟨"vote1", "de", 0, some "Titel"⟩

def metaFr : ChunkMeta := ⟨"vote1", "fr", 0, none⟩

def rowDe : Row := ⟨"vote1_de_0", "Deutscher Text.", metaDe, 1/2⟩

def rowFr : Row := ⟨"vote1_fr_0", "Texte en francais.", metaFr, 1/10⟩

/-- A row whose distance `1/25000` is not a multiple of `1/10000`, so the
4-decimal rounding moves the reported similarity. -/
def rowNear : Row := ⟨"vote1_de_0", "Deutscher Text.", metaDe, 1/25000⟩

/-- A store with one German row (similarity `0.5`) and one French row
(similarity `0.9`). -/
def storeTwoLang : VectorStore := fun _ lang n =>
  some ((if lang = "de" then [rowDe] else if lang = "fr" then [rowFr] else []).take n)

/-- A store returning only `rowNear`. -/
def storeNear : VectorStore := fun _ _ n => some ([rowNear].take n)

/-- A store that matches nothing. -/
def storeEmptyRes : VectorStore := fun _ _ _ => some ([] : List Row)

/-- A store whose non-German queries raise. -/
def storeDeOnly : VectorStore := fun _ lang n =>
  if lang = "de" then some ([rowDe].take n) else none

/-- Text on which `chunk_text 10 5` reaches the fixed point `start = 0`. -/
def t2Text : List Char := "abcd.bbbbbbbbbbbbbbb".data

/-- Text on which the first `chunk_text 10 5` iteration moves the window
start from `0` to `-2`. -/
def t3Text : List Char := "ab.ccccccccccccccccc".data

/-- A well-behaved German sample text. -/
def t4Text : List Char :=
  "Satz eins ist hier. Satz zwei folgt! Ist das Satz drei? Ende gut alles gut.".data

/-- A small indexing sample. -/
def t5Text : List Char := "Aa. Bb. Cc.".data

/-- The prepared chunks of `t5Text` with `chunk_size = 5`, `overlap = 1`. -/
def sampleOut : List PreparedChunk :=
  [⟨"v1", "de", 0, "Aa.".data, "v1_de_0"⟩,
   ⟨"v1", "de", 1, ". Bb.".data, "v1_de_1"⟩,
   ⟨"v1", "de", 2, ". Cc.".data, "v1_de_2"⟩]

/-- The middle prepared chunk of `sampleOut`. -/
def sampleEntry : PreparedChunk := ⟨"v1", "de", 1, ". Bb.".data, "v1_de_1"⟩

/-! ### Helper lemmas: rounding and similarity -/

lemma le_rhe (q : ℚ) : ⌊q⌋ ≤ rhe q := by
  unfold rhe
  split_ifs <;> omega

lemma rhe_le (q : ℚ) : rhe q ≤ ⌊q⌋ + 1 := by
  unfold rhe
  split_ifs <;> omega

lemma rhe_mono {x y : ℚ} (h : x ≤ y) : rhe x ≤ rhe y := by
  rcases lt_or_eq_of_le (Int.floor_le_floor h) with hf | hf
  · calc rhe x ≤ ⌊x⌋ + 1 := rhe_le x
      _ ≤ ⌊y⌋ := by omega
      _ ≤ rhe y := le_rhe y
  · have hq : (⌊x⌋ : ℚ) = (⌊y⌋ : ℚ) := by exact_mod_cast hf
    have hr : x - ⌊x⌋ ≤ y - ⌊y⌋ := by rw [← hq]; linarith
    unfold rhe
    split_ifs <;>
      first
        | omega
        | linarith
        | (simp only [Int.even_iff] at *; omega)

lemma rhe_intCast (n : ℤ) : rhe (n : ℚ) = n := by
  unfold rhe
  rw [Int.floor_intCast]
  norm_num

lemma round4_mono {x y : ℚ} (h : x ≤ y) : round4 x ≤ round4 y := by
  unfold round4
  have h1 : x * 10000 ≤ y * 10000 := by linarith
  have h2 : (rhe (x * 10000) : ℚ) ≤ (rhe (y * 10000) : ℚ) :=
    Int.cast_le.mpr (rhe_mono h1)
  have h3 : (0 : ℚ) ≤ 10000 := by norm_num
  exact div_le_div_of_nonneg_right h2 h3

lemma round4_zero : round4 0 = 0 := by
  have h : rhe ((0 : ℚ) * 10000) = 0 := by
    rw [zero_mul]
    have := rhe_intCast 0
    simpa using this
  rw [round4, h]
  norm_num

lemma round4_one : round4 1 = 1 := by
  have h : rhe ((1 : ℚ) * 10000) = 10000 := by
    have h1 : ((1 : ℚ) * 10000) = ((10000 : ℤ) : ℚ) := by norm_num
    rw [h1, rhe_intCast]
  rw [round4, h]
  norm_num

lemma round4_nonneg {s : ℚ} (h : 0 ≤ s) : 0 ≤ round4 s := by
  have := round4_mono h
  rwa [round4_zero] at this

lemma round4_le_one {s : ℚ} (h : s ≤ 1) : round4 s ≤ 1 := by
  have := round4_mono h
  rwa [round4_one] at this

lemma simOf_nonneg (d : ℚ) : 0 ≤ simOf d := by
  unfold simOf
  have : min d 1 ≤ 1 := min_le_right _ _
  linarith

lemma simOf_le_one {d : ℚ} (h : 0 ≤ d) : simOf d ≤ 1 := by
  unfold simOf
  have : (0 : ℚ) ≤ min d 1 := le_min h (by norm_num)
  linarith

lemma simOf_antitone {d₁ d₂ : ℚ} (h : d₁ ≤ d₂) : simOf d₂ ≤ simOf d₁ := by
  unfold simOf
  have : min d₁ 1 ≤ min d₂ 1 := min_le_min h (le_refl (1 : ℚ))
  linarith

/-! ### Helper lemmas: retrieval -/

lemma mem_mkContexts {θ : ℚ} {rows : List Row} {c : Ctx}
    (h : c ∈ mkContexts θ rows) :
    ∃ r ∈ rows, c = mkCtx r ∧ θ ≤ simOf r.distance := by
  induction rows with
  | nil => simp [mkContexts] at h
  | cons r rs ih =>
    rw [mkContexts] at h
    split_ifs at h with hr
    · rcases List.mem_cons.mp h with h1 | h1
      · exact ⟨r, List.mem_cons_self r rs, h1, hr⟩
      · rcases ih h1 with ⟨s, hs, he, ht⟩
        exact ⟨s, List.mem_cons_of_mem _ hs, he, ht⟩
    · rcases ih h with ⟨s, hs, he, ht⟩
      exact ⟨s, List.mem_cons_of_mem _ hs, he, ht⟩

lemma mkContexts_length_le (θ : ℚ) (rows : List Row) :
    (mkContexts θ rows).length ≤ rows.length := by
  induction rows with
  | nil => simp [mkContexts]
  | cons r rs ih =>
    rw [mkContexts]
    split_ifs <;> simp only [List.length_cons] <;> omega

lemma mkContexts_pairwise {θ : ℚ} {rows : List Row}
    (h : rows.Pairwise fun a b => a.distance ≤ b.distance) :
    (mkContexts θ rows).Pairwise fun a b : Ctx => b.similarity ≤ a.similarity := by
  induction rows with
  | nil => simp [mkContexts]
  | cons r rs ih =>
    rcases List.pairwise_cons.mp h with ⟨hr, hrs⟩
    rw [mkContexts]
    split_ifs with hθ
    · refine List.pairwise_cons.mpr ⟨?_, ih hrs⟩
      intro c hc
      rcases mem_mkContexts hc with ⟨s, hs, rfl, _⟩
      show round4 (simOf s.distance) ≤ round4 (simOf r.distance)
      exact round4_mono (simOf_antitone (hr s hs))
    · exact ih hrs

lemma retrieve_context_length_le {store : VectorStore} (hb : StoreBounded store)
    (q lang : String) (k : Nat) (θ : ℚ) :
    (retrieve_context store q lang k θ).length ≤ k := by
  unfold retrieve_context
  split
  · simp
  · rename_i rows heq
    exact (mkContexts_length_le θ rows).trans (hb q lang k rows heq)

lemma mem_retrieve_context {store : VectorStore} {q lang : String} {k : Nat}
    {θ : ℚ} {c : Ctx} (h : c ∈ retrieve_context store q lang k θ) :
    ∃ rows, store q lang k = some rows ∧
      ∃ r ∈ rows, c = mkCtx r ∧ θ ≤ simOf r.distance := by
  unfold retrieve_context at h
  split at h
  · simp at h
  · rename_i rows heq
    exact ⟨rows, heq, mem_mkContexts h⟩

lemma retrieve_context_pairwise {store : VectorStore} (hs : StoreSorted store)
    (q lang : String) (k : Nat) (θ : ℚ) :
    (retrieve_context store q lang k θ).Pairwise
      fun a b : Ctx => b.similarity ≤ a.similarity := by
  unfold retrieve_context
  split
  · simp
  · rename_i rows heq
    exact mkContexts_pairwise (hs q lang k rows heq)

lemma acc_prefix_of_fallbackLoop (store : VectorStore) (q : String) (k : Nat) :
    ∀ (langs : List String) (acc : List Ctx),
      acc <+: fallbackLoop store q k langs acc := by
  intro langs
  induction langs with
  | nil => intro acc; exact List.prefix_refl _
  | cons l rest ih =>
    intro acc
    simp only [fallbackLoop]
    split_ifs with h
    · exact List.prefix_append acc _
    · exact (List.prefix_append acc _).trans (ih _)

lemma fallbackLoop_of_empty {store : VectorStore} {q : String} {k : Nat} :
    ∀ (langs : List String) (acc : List Ctx),
      (∀ l ∈ langs, ∀ n, retrieve_context store q l n 0 = []) →
      fallbackLoop store q k langs acc = acc := by
  intro langs
  induction langs with
  | nil => intro acc _; rfl
  | cons l rest ih =>
    intro acc hall
    simp only [fallbackLoop]
    rw [hall l (List.mem_cons_self l rest) (k - acc.length), List.append_nil]
    split_ifs with h
    · rfl
    · exact ih acc fun l' hl' n => hall l' (List.mem_cons_of_mem _ hl') n

lemma retrieve_with_fallback_eq (store : VectorStore) (q plang : String)
    (k : Nat) :
    retrieve_with_fallback store q plang k =
      (if (retrieve_context store q plang k 0).length < k / 2 then
        fallbackLoop store q k (supportedLangs.filter (· != plang))
          (retrieve_context store q plang k 0)
      else retrieve_context store q plang k 0).take k := rfl

lemma retrieve_with_fallback_length_le (store : VectorStore) (q plang : String)
    (k : Nat) : (retrieve_with_fallback store q plang k).length ≤ k := by
  rw [retrieve_with_fallback_eq]
  exact List.length_take_le _ _

lemma prefix_take_of_le {α : Type} {l₁ l₂ : List α} {k : Nat}
    (h : l₁ <+: l₂) (hl : l₁.length ≤ k) : l₁ <+: l₂.take k := by
  rcases h with ⟨t, rfl⟩
  rw [List.take_append_eq_append_take, List.take_of_length_le hl]
  exact List.prefix_append _ _

lemma primary_prefix_fallback {store : VectorStore} (hb : StoreBounded store)
    (q plang : String) (k : Nat) :
    retrieve_context store q plang k 0 <+: retrieve_with_fallback store q plang k := by
  rw [retrieve_with_fallback_eq]
  split_ifs with h
  · exact prefix_take_of_le (acc_prefix_of_fallbackLoop store q k _ _)
      (le_of_lt (lt_of_lt_of_le h (Nat.div_le_self k 2)))
  · rw [List.take_of_length_le (retrieve_context_length_le hb q plang k 0)]

lemma storeTwoLang_sorted : StoreSorted storeTwoLang := by
  intro q lang n rows h
  unfold storeTwoLang at h
  rcases Option.some.inj h with rfl
  apply List.Pairwise.sublist (List.take_sublist n _)
  split_ifs <;> simp

lemma storeTwoLang_bounded : StoreBounded storeTwoLang := by
  intro q lang n rows h
  unfold storeTwoLang at h
  rcases Option.some.inj h with rfl
  simp [List.length_take]

/-! ### Helper lemmas: context formatting -/

lemma addToGroups_ne_nil (vid : String) (c : Ctx) :
    ∀ gs : List (String × List Ctx), addToGroups vid c gs ≠ [] := by
  intro gs
  cases gs with
  | nil => simp [addToGroups]
  | cons g rest =>
    obtain ⟨v, cs⟩ := g
    simp only [addToGroups]
    split_ifs <;> simp

lemma foldl_addToGroups_ne_nil :
    ∀ (l : List Ctx) (gs : List (String × List Ctx)), gs ≠ [] →
      l.foldl (fun gs c => addToGroups c.metadata.vote_id c gs) gs ≠ [] := by
  intro l
  induction l with
  | nil => intro gs h; simpa using h
  | cons c rest ih => intro gs _; exact ih _ (addToGroups_ne_nil _ _ _)

lemma groupByVoteId_ne_nil {contexts : List Ctx} (h : contexts ≠ []) :
    groupByVoteId contexts ≠ [] := by
  cases contexts with
  | nil => exact absurd rfl h
  | cons c rest =>
    unfold groupByVoteId
    rw [List.foldl_cons]
    exact foldl_addToGroups_ne_nil rest _ (addToGroups_ne_nil _ _ _)

lemma joinSep_length_pos (sep x : String) (xs : List String) (h : 0 < x.length) :
    0 < (joinSep sep (x :: xs)).length := by
  cases xs with
  | nil => simpa [joinSep] using h
  | cons y ys =>
    show 0 < (x ++ sep ++ joinSep sep (y :: ys)).length
    rw [String.length_append, String.length_append]
    omega

lemma format_ne_empty (contexts : List Ctx) : format_context_for_llm contexts ≠ "" := by
  unfold format_context_for_llm
  split_ifs with h
  · decide
  · have hne : contexts ≠ [] := by
      intro habs; rw [habs] at h; simp at h
    obtain ⟨g, gs, hgs⟩ := List.exists_cons_of_ne_nil (groupByVoteId_ne_nil hne)
    have hcons : (groupByVoteId contexts).flatMap groupParts =
        ("\n**Initiative " ++ g.1 ++ ": " ++ groupTitle g.1 g.2 ++ "**\n")
          :: (g.2.flatMap (fun c => [c.text, ""]) ++ gs.flatMap groupParts) := by
      rw [hgs]
      rfl
    rw [hcons]
    intro habs
    have hpos : 0 < ("\n**Initiative " ++ g.1 ++ ": "
        ++ groupTitle g.1 g.2 ++ "**\n").length := by
      simp only [String.length_append]
      have h14 : 0 < ("\n**Initiative " : String).length := by decide
      omega
    have hj := joinSep_length_pos "\n" _
      (g.2.flatMap (fun c => [c.text, ""]) ++ gs.flatMap groupParts) hpos
    rw [habs] at hj
    simp at hj

/-! ### Helper lemmas: the chunker -/

lemma chunkEnd_ge (text : List Char) (cs start : ℤ) :
    chunkEnd text cs start = start + cs ∨ start + 2 ≤ chunkEnd text cs start := by
  simp only [chunkEnd]
  split_ifs with h1 h2
  · right; omega
  · left; rfl
  · left; rfl

lemma chunkNextStart_progress {text : List Char} {cs ov start : ℤ}
    (hov1 : ov ≤ 1) (hcs : ov < cs) (hs : start < (text.length : ℤ)) :
    start + 1 ≤ chunkNextStart text ov (chunkEnd text cs start) := by
  unfold chunkNextStart
  rcases chunkEnd_ge text cs start with he | he <;> split_ifs with hlt <;> omega

lemma chunkLoop_isSome {text : List Char} {cs ov : ℤ}
    (hov1 : ov ≤ 1) (hcs : ov < cs) :
    ∀ (fuel : Nat) (start : ℤ) (acc : List (List Char)),
      ((text.length : ℤ) - start).toNat < fuel →
      (chunkLoop text cs ov fuel start acc).isSome := by
  intro fuel
  induction fuel with
  | zero => intro start acc h; omega
  | succ n ih =>
    intro start acc h
    rw [chunkLoop]
    split_ifs with hlt
    · apply ih
      have := chunkNextStart_progress hov1 hcs hlt
      omega
    · simp

lemma t2_loop_none : ∀ (fuel : Nat) (acc : List (List Char)),
    chunkLoop t2Text 10 5 fuel 0 acc = none := by
  intro fuel
  induction fuel with
  | zero => intro acc; rfl
  | succ n ih =>
    intro acc
    have h1 : chunkEnd t2Text 10 0 = 5 := by decide
    have h2 : chunkNextStart t2Text 5 5 = 0 := by decide
    simp only [chunkLoop]
    rw [if_pos (by decide : (0 : ℤ) < (t2Text.length : ℤ)), h1, h2]
    exact ih _

/-! ### Helper lemmas: indexing preparation -/

lemma prepareEntries_map_text (vid lang : String) (cks : List (List Char)) :
    (prepareEntries vid lang cks).map (fun e => e.text) = cks := by
  unfold prepareEntries
  rw [List.map_map]
  exact List.enum_map_snd cks

lemma prepareEntries_map_key (vid lang : String) (cks : List (List Char)) :
    (prepareEntries vid lang cks).map (fun e => e.chunk_id) =
      (List.range cks.length).map (mkChunkKey vid lang) := by
  unfold prepareEntries
  rw [List.map_map, ← List.enum_map_fst cks, List.map_map]
  rfl

lemma mem_prepareEntries {vid lang : String} {cks : List (List Char)}
    {e : PreparedChunk} (h : e ∈ prepareEntries vid lang cks) :
    e.vote_id = vid ∧ e.language = lang ∧
      e.chunk_id = mkChunkKey vid lang e.chunk_index := by
  unfold prepareEntries at h
  rcases List.mem_map.mp h with ⟨p, _, rfl⟩
  exact ⟨rfl, rfl, rfl⟩

lemma mem_prepare_brochure {vid : String} {cs ov : ℤ} {fuel : Nat} :
    ∀ {bt : List (String × List Char)} {out : List PreparedChunk},
      prepare_brochure_for_indexing vid cs ov fuel bt = some out →
      ∀ e ∈ out, e.vote_id = vid ∧
        e.chunk_id = mkChunkKey vid e.language e.chunk_index := by
  intro bt
  induction bt with
  | nil =>
    intro out h e he
    rw [prepare_brochure_for_indexing] at h
    rcases Option.some.inj h with rfl
    simp at he
  | cons p rest ih =>
    obtain ⟨lang, text⟩ := p
    intro out h e he
    rw [prepare_brochure_for_indexing] at h
    split_ifs at h with hemp
    · exact ih h e he
    · cases hc : chunk_text text cs ov fuel with
      | none => rw [hc] at h; simp [Option.bind_eq_bind'] at h
      | some cks =>
        rw [hc] at h
        cases hr : prepare_brochure_for_indexing vid cs ov fuel rest with
        | none => rw [hr] at h; simp [Option.bind_eq_bind'] at h
        | some others =>
          rw [hr] at h
          simp only [Option.bind_eq_bind', Option.some_bind',
            Option.pure_def] at h
          rcases Option.some.inj h with rfl
          rcases List.mem_append.mp he with hm | hm
          · rcases mem_prepareEntries hm with ⟨h1, h2, h3⟩
            exact ⟨h1, by rw [h3, h2]⟩
          · exact ih hr e hm

/-! ### Helper lemmas: concrete evaluations

Mathlib's rational-number instances do not reduce inside the kernel, so
concrete runs touching `ℚ` are evaluated through `norm_num` lemmas. -/

lemma mkContexts_zero (rows : List Row) : mkContexts 0 rows = rows.map mkCtx := by
  induction rows with
  | nil => rfl
  | cons r rs ih =>
    rw [mkContexts, if_pos (simOf_nonneg _), ih]
    rfl

lemma retrieve_twoLang_de : retrieve_context storeTwoLang "q" "de" 5 0 = [mkCtx rowDe] := by
  show mkContexts 0 [rowDe] = _
  rw [mkContexts_zero]
  rfl

lemma retrieve_twoLang_fr : retrieve_context storeTwoLang "q" "fr" 4 0 = [mkCtx rowFr] := by
  show mkContexts 0 [rowFr] = _
  rw [mkContexts_zero]
  rfl

lemma retrieve_twoLang_it : retrieve_context storeTwoLang "q" "it" 3 0 = [] := rfl

lemma fallback_twoLang :
    retrieve_with_fallback storeTwoLang "q" "de" 5 = [mkCtx rowDe, mkCtx rowFr] := by
  rw [retrieve_with_fallback_eq, retrieve_twoLang_de]
  rw [if_pos (by norm_num : ([mkCtx rowDe] : List Ctx).length < 5 / 2)]
  have hlangs : supportedLangs.filter (fun l => l != "de") = ["fr", "it"] := rfl
  rw [hlangs]
  simp only [fallbackLoop, List.length_cons, List.length_nil]
  norm_num [retrieve_twoLang_fr, retrieve_twoLang_it]

lemma simCtx_de : (mkCtx rowDe).similarity = 1/2 := by
  show round4 (simOf (1/2)) = 1/2
  norm_num [round4, rhe, simOf]

lemma simCtx_fr : (mkCtx rowFr).similarity = 9/10 := by
  show round4 (simOf (1/10)) = 9/10
  norm_num [round4, rhe, simOf]

lemma simCtx_near : (mkCtx rowNear).similarity = 1 := by
  show round4 (simOf (1/25000)) = 1
  norm_num [round4, rhe, simOf]

lemma retrieve_near : retrieve_context storeNear "q" "de" 5 0 = [mkCtx rowNear] := by
  show mkContexts 0 [rowNear] = _
  rw [mkContexts_zero]
  rfl

/-! ### Claim theorems -/

/-- C1: for every query, the fallback retrieval returns at most `topK`
contexts; when the primary-language call already yields at least
`topK / 2` contexts the result is just those contexts truncated to `topK`;
when it yields fewer, the other supported languages are queried in their
fixed priority order with the primary contexts kept as a prefix, and each
loop step requests `topK` minus the current count and stops as soon as the
running total reaches `topK`. -/
theorem C1_language_fallback_policy (store : VectorStore) (q plang : String)
    (k : Nat) :
    (retrieve_with_fallback store q plang k).length ≤ k
    ∧ (k / 2 ≤ (retrieve_context store q plang k 0).length →
        retrieve_with_fallback store q plang k =
          (retrieve_context store q plang k 0).take k)
    ∧ ((retrieve_context store q plang k 0).length < k / 2 →
        retrieve_with_fallback store q plang k =
          (fallbackLoop store q k (supportedLangs.filter (· != plang))
            (retrieve_context store q plang k 0)).take k
        ∧ retrieve_context store q plang k 0 <+:
            retrieve_with_fallback store q plang k)
    ∧ (∀ (l : String) (rest : List String) (acc : List Ctx),
        fallbackLoop store q k (l :: rest) acc =
          if k ≤ (acc ++ retrieve_context store q l (k - acc.length) 0).length
          then acc ++ retrieve_context store q l (k - acc.length) 0
          else fallbackLoop store q k rest
            (acc ++ retrieve_context store q l (k - acc.length) 0)) := by
  refine ⟨retrieve_with_fallback_length_le store q plang k, ?_, ?_,
    fun l rest acc => rfl⟩
  · intro h
    rw [retrieve_with_fallback_eq, if_neg (not_lt.mpr h)]
  · intro h
    constructor
    · rw [retrieve_with_fallback_eq, if_pos h]
    · rw [retrieve_with_fallback_eq, if_pos h]
      exact prefix_take_of_le (acc_prefix_of_fallbackLoop store q k _ _)
        (le_of_lt (lt_of_lt_of_le h (Nat.div_le_self k 2)))

/-- C1 witness: on a store with one German row, `topK = 5` triggers the
fallback path and the German context stays in front. -/
theorem C1_language_fallback_policy_witness :
    (retrieve_context storeTwoLang "q" "de" 5 0).length < 5 / 2
    ∧ retrieve_with_fallback storeTwoLang "q" "de" 5 =
        (fallbackLoop storeTwoLang "q" 5 (supportedLangs.filter (· != "de"))
          (retrieve_context storeTwoLang "q" "de" 5 0)).take 5
    ∧ retrieve_context storeTwoLang "q" "de" 5 0 <+:
        retrieve_with_fallback storeTwoLang "q" "de" 5 := by
  have hlt : (retrieve_context storeTwoLang "q" "de" 5 0).length < 5 / 2 := by
    rw [retrieve_twoLang_de]
    norm_num
  refine ⟨hlt, ?_, ?_⟩
  · exact ((C1_language_fallback_policy storeTwoLang "q" "de" 5).2.2.1 hlt).1
  · exact ((C1_language_fallback_policy storeTwoLang "q" "de" 5).2.2.1 hlt).2

/-- C2 counterexample: `overlap < chunk_size` alone does not make
`chunk_text` terminate: on the text `"abcd." ++ "b" * 15` with
`chunk_size = 10`, `overlap = 5`, the sentence cut puts the window end at 5
and the next start back at `5 - 5 = 0`, a fixed point, so no amount of fuel
finishes the loop. -/
theorem C2_chunker_nontermination_counterexample :
    ((5 : ℤ) < 10) ∧ ¬ ChunkTextTerminates t2Text 10 5 := by
  refine ⟨by norm_num, ?_⟩
  rintro ⟨fuel, hf⟩
  unfold chunk_text at hf
  rw [if_neg (by decide : ¬ t2Text.isEmpty = true), t2_loop_none fuel []] at hf
  simp at hf

/-- C2 (amended): `chunk_text` terminates for every text whenever the
overlap is at most 1 — strictly less than 2, the minimum possible
sentence-aligned chunk length — and strictly less than the chunk size;
then every iteration advances the window start by at least one
character, so `len(text) + 1` loop iterations always suffice. -/
theorem C2_chunker_termination_amended (text : List Char) (cs ov : ℤ)
    (hov1 : ov ≤ 1) (hcs : ov < cs) : ChunkTextTerminates text cs ov := by
  refine ⟨text.length + 1, ?_⟩
  unfold chunk_text
  split_ifs with h
  · rfl
  · exact chunkLoop_isSome hov1 hcs _ 0 [] (by omega)

/-- C2 witness: the sample text is chunked to completion with
`chunk_size = 30`, `overlap = 1`. -/
theorem C2_chunker_termination_amended_witness :
    ((1 : ℤ) ≤ 1) ∧ ((1 : ℤ) < 30) ∧ ChunkTextTerminates t4Text 30 1 :=
  ⟨le_refl 1, by norm_num,
   C2_chunker_termination_amended t4Text 30 1 (le_refl 1) (by norm_num)⟩

/-- C3 counterexample: the window advance is not clamped: on
`"ab." ++ "c" * 17` with `chunk_size = 10`, `overlap = 5`, the first
iteration ends the window at 3 and sets the next start to `-2`, regressing
past the previous start 0. -/
theorem C3_no_clamp_counterexample :
    ((5 : ℤ) < 10)
    ∧ chunkEnd t3Text 10 0 = 3
    ∧ chunkNextStart t3Text 5 (chunkEnd t3Text 10 0) = -2
    ∧ ((-2 : ℤ) < 0) :=
  ⟨by norm_num, by decide, by decide, by norm_num⟩

/-- C3 (amended): in every iteration whose window does not reach the text
end, the next window start is exactly the window end minus the overlap,
with no clamping (it may regress past the previous start); when the window
reaches the text end, the start advances to the text end and the loop stops
with the accumulated chunks. -/
theorem C3_window_advance_amended (text : List Char) (cs ov start : ℤ)
    (fuel : Nat) (acc : List (List Char))
    (hs : start < (text.length : ℤ)) :
    (chunkEnd text cs start < (text.length : ℤ) →
      chunkNextStart text ov (chunkEnd text cs start) =
        chunkEnd text cs start - ov)
    ∧ (¬ chunkEnd text cs start < (text.length : ℤ) →
        chunkNextStart text ov (chunkEnd text cs start) = (text.length : ℤ)
        ∧ chunkLoop text cs ov (fuel + 2) start acc =
            some (chunkAppend text start (chunkEnd text cs start) acc)) := by
  constructor
  · intro h
    unfold chunkNextStart
    rw [if_pos h]
  · intro h
    have hn : chunkNextStart text ov (chunkEnd text cs start) =
        (text.length : ℤ) := by
      unfold chunkNextStart
      rw [if_neg h]
    refine ⟨hn, ?_⟩
    have h2 : fuel + 2 = (fuel + 1) + 1 := rfl
    rw [h2]
    simp only [chunkLoop]
    rw [if_pos hs, hn, if_neg (lt_irrefl _)]

/-- C3 witness: on `"abc"` with `chunk_size = 10` the first window reaches
the text end, the start advances to the text end and the loop returns the
single chunk. -/
theorem C3_window_advance_amended_witness :
    ((0 : ℤ) < ("abc".data.length : ℤ))
    ∧ (¬ chunkEnd "abc".data 10 0 < ("abc".data.length : ℤ))
    ∧ chunkNextStart "abc".data 3 (chunkEnd "abc".data 10 0) =
        ("abc".data.length : ℤ)
    ∧ chunkLoop "abc".data 10 3 (0 + 2) 0 [] =
        some (chunkAppend "abc".data 0 (chunkEnd "abc".data 10 0) []) := by
  refine ⟨by decide, by decide, ?_, ?_⟩
  · exact ((C3_window_advance_amended "abc".data 10 3 0 0 []
      (by decide)).2 (by decide)).1
  · exact ((C3_window_advance_amended "abc".data 10 3 0 0 []
      (by decide)).2 (by decide)).2

/-- C4 counterexample: the reported similarity is not exactly
`1 - min(distance, 1.0)`: for the non-negative distance `1/25000` the code
reports `round(0.99996, 4) = 1.0`. -/
theorem C4_similarity_rounding_counterexample :
    ((0 : ℚ) ≤ 1/25000)
    ∧ (retrieve_context storeNear "q" "de" 5 0).map (fun c => c.similarity) = [1]
    ∧ (1 : ℚ) ≠ 1 - min (1/25000) 1 := by
  refine ⟨by norm_num, ?_, ?_⟩
  · rw [retrieve_near, List.map_cons, List.map_nil, simCtx_near]
  · rw [min_eq_left (by norm_num : (1/25000 : ℚ) ≤ 1)]
    norm_num

/-- C4 (amended): every context returned by `retrieve_context` reports
`similarityScore = round(1 - min(distance, 1.0), 4)` and
`distance` rounded likewise; for non-negative store distances the reported
score lies in `[0, 1]`, and the reported score is monotonically
non-increasing in the distance. -/
theorem C4_similarity_score_amended (store : VectorStore) (q lang : String)
    (k : Nat) (θ : ℚ) :
    (∀ c ∈ retrieve_context store q lang k θ,
      ∃ rows, store q lang k = some rows ∧ ∃ r ∈ rows,
        c.similarity = round4 (simOf r.distance)
        ∧ c.distance = round4 r.distance
        ∧ (0 ≤ r.distance → 0 ≤ c.similarity ∧ c.similarity ≤ 1))
    ∧ (∀ d₁ d₂ : ℚ, 0 ≤ d₁ → d₁ ≤ d₂ →
        round4 (simOf d₂) ≤ round4 (simOf d₁)) := by
  constructor
  · intro c hc
    rcases mem_retrieve_context hc with ⟨rows, heq, r, hr, rfl, _⟩
    exact ⟨rows, heq, r, hr, rfl, rfl, fun hd =>
      ⟨round4_nonneg (simOf_nonneg _), round4_le_one (simOf_le_one hd)⟩⟩
  · intro d₁ d₂ _ h
    exact round4_mono (simOf_antitone h)

/-- C4 witness: the context built from `rowNear` has its reported score in
`[0, 1]`, and the reported score at distance `1/2` is below the one at
`1/4`. -/
theorem C4_similarity_score_amended_witness :
    ((0 : ℚ) ≤ (mkCtx rowNear).similarity ∧ (mkCtx rowNear).similarity ≤ 1)
    ∧ round4 (simOf (1/2)) ≤ round4 (simOf (1/4)) := by
  constructor
  · have h := (C4_similarity_score_amended storeNear "q" "de" 5 0).1
      (mkCtx rowNear)
      (by rw [retrieve_near]; exact List.mem_singleton_self _)
    rcases h with ⟨rows, hrows, r, hr, h1, h2, h3⟩
    have hr2 : [rowNear] = rows :=
      Option.some.inj ((rfl :
        storeNear "q" "de" 5 = some [rowNear]).symm.trans hrows)
    subst hr2
    have hrr : r = rowNear := by simpa using hr
    subst hrr
    exact h3 (by show (0:ℚ) ≤ 1/25000; norm_num)
  · exact (C4_similarity_score_amended storeNear "q" "de" 5 0).2
      (1/4) (1/2) (by norm_num) (by norm_num)

/-- C5 counterexample: the combined fallback result is not globally ordered
by descending similarity even against a well-behaved store: the German
context (similarity `0.5`) precedes the French one (similarity `0.9`). -/
theorem C5_global_order_counterexample :
    StoreSorted storeTwoLang ∧ StoreBounded storeTwoLang
    ∧ (retrieve_with_fallback storeTwoLang "q" "de" 5).map (fun c => c.similarity)
        = [1/2, 9/10]
    ∧ ¬ (retrieve_with_fallback storeTwoLang "q" "de" 5).Pairwise
        (fun a b : Ctx => b.similarity ≤ a.similarity) := by
  refine ⟨storeTwoLang_sorted, storeTwoLang_bounded, ?_, ?_⟩
  · rw [fallback_twoLang, List.map_cons, List.map_cons, List.map_nil,
      simCtx_de, simCtx_fr]
  · rw [fallback_twoLang]
    intro hp
    have h := (List.pairwise_cons.mp hp).1 (mkCtx rowFr)
      (List.mem_cons_self _ _)
    rw [simCtx_de, simCtx_fr] at h
    norm_num at h

/-- C5 (amended): against a store that returns distance-sorted,
count-bounded rows, each single `retrieve_context` call returns contexts
ordered by non-increasing reported similarity, of length at most `topK`,
each coming from a row whose pre-rounding similarity meets the threshold;
the fallback result has length at most `topK` and keeps the
primary-language contexts as an ordered prefix (ordering across the
concatenated language segments is not guaranteed). -/
theorem C5_retriever_contract_amended (store : VectorStore)
    (hs : StoreSorted store) (hb : StoreBounded store)
    (q lang plang : String) (k : Nat) (θ : ℚ) :
    ((retrieve_context store q lang k θ).Pairwise
      fun a b : Ctx => b.similarity ≤ a.similarity)
    ∧ (retrieve_context store q lang k θ).length ≤ k
    ∧ (∀ c ∈ retrieve_context store q lang k θ,
        ∃ rows, store q lang k = some rows ∧ ∃ r ∈ rows,
          c = mkCtx r ∧ θ ≤ simOf r.distance)
    ∧ (retrieve_with_fallback store q plang k).length ≤ k
    ∧ retrieve_context store q plang k 0 <+:
        retrieve_with_fallback store q plang k :=
  ⟨retrieve_context_pairwise hs q lang k θ,
   retrieve_context_length_le hb q lang k θ,
   fun _ hc => mem_retrieve_context hc,
   retrieve_with_fallback_length_le store q plang k,
   primary_prefix_fallback hb q plang k⟩

/-- C5 witness: the contract instantiated on the two-language store. -/
theorem C5_retriever_contract_amended_witness :
    ((retrieve_context storeTwoLang "q" "de" 5 0).Pairwise
      fun a b : Ctx => b.similarity ≤ a.similarity)
    ∧ (retrieve_with_fallback storeTwoLang "q" "de" 5).length ≤ 5 :=
  ⟨(C5_retriever_contract_amended storeTwoLang storeTwoLang_sorted
      storeTwoLang_bounded "q" "de" "de" 5 0).1,
   (C5_retriever_contract_amended storeTwoLang storeTwoLang_sorted
      storeTwoLang_bounded "q" "de" "de" 5 0).2.2.2.1⟩

/-- C6: a raised similarity-search call makes `retrieve_context` return the
empty list; when every secondary-language call raises, the fallback result
is exactly the primary result (truncated to `topK`); and against a
count-bounded store the primary contexts are always a prefix of the
fallback result, so a failed secondary query never discards primary
results. -/
theorem C6_subquery_failure_isolation (store : VectorStore)
    (q lang plang : String) (k : Nat) (θ : ℚ) :
    (store q lang k = none → retrieve_context store q lang k θ = [])
    ∧ ((∀ l n, l ≠ plang → store q l n = none) →
        retrieve_with_fallback store q plang k =
          (retrieve_context store q plang k 0).take k)
    ∧ (StoreBounded store →
        retrieve_context store q plang k 0 <+:
          retrieve_with_fallback store q plang k) := by
  refine ⟨?_, ?_, fun hb => primary_prefix_fallback hb q plang k⟩
  · intro h
    unfold retrieve_context
    rw [h]
  · intro hfail
    rw [retrieve_with_fallback_eq]
    split_ifs with h
    · rw [fallbackLoop_of_empty _ _ ?_]
      intro l hl n
      have hne : l ≠ plang := by
        rcases List.mem_filter.mp hl with ⟨_, hd⟩
        simpa using hd
      unfold retrieve_context
      rw [hfail l n hne]
    · rfl

/-- C6 witness: on a store whose non-German calls raise, the French query
returns `[]` and the German fallback result is the German result alone. -/
theorem C6_subquery_failure_isolation_witness :
    retrieve_context storeDeOnly "q" "fr" 5 0 = []
    ∧ retrieve_with_fallback storeDeOnly "q" "de" 5 =
        (retrieve_context storeDeOnly "q" "de" 5 0).take 5 := by
  constructor
  · exact (C6_subquery_failure_isolation storeDeOnly "q" "fr" "de" 5 0).1 rfl
  · exact (C6_subquery_failure_isolation storeDeOnly "q" "de" "de" 5 0).2.1
      (fun l n hl => if_neg hl)

/-- C7: when the metadata-store session cannot be opened, the enricher
returns the empty mapping, and `query_with_context` still returns the
retrieved contexts, an empty `initiative_metadata` and a non-empty
formatted text. -/
theorem C7_enrichment_graceful_degradation (store : VectorStore)
    (q lang : String) (k : Nat) (inc : Bool) (ids : List String) :
    get_initiative_metadata none ids = []
    ∧ (query_with_context store none q lang k inc).contexts =
        retrieve_with_fallback store q lang k
    ∧ (query_with_context store none q lang k inc).initiative_metadata = []
    ∧ (query_with_context store none q lang k inc).formatted_context =
        format_context_for_llm (retrieve_with_fallback store q lang k)
    ∧ (query_with_context store none q lang k inc).formatted_context ≠ "" := by
  refine ⟨rfl, rfl, ?_, rfl, format_ne_empty _⟩
  show (if inc && !((retrieve_with_fallback store q lang k).map
        (fun c => c.metadata.vote_id)).isEmpty
      then get_initiative_metadata none
        ((retrieve_with_fallback store q lang k).map
          (fun c => c.metadata.vote_id))
      else []) = []
  split_ifs <;> rfl

/-- C8: chunking and key assignment are deterministic — equal inputs give
equal prepared chunks — and every prepared chunk carries the key
`f"{vote_id}_{language}_{index}"` derived from its own source id, language
and chunk index, with chunk texts exactly the chunker's output in order. -/
theorem C8_chunking_determinism_and_keys (vid lang : String) (cs ov : ℤ)
    (fuel : Nat) (bt : List (String × List Char)) (text : List Char)
    (cks : List (List Char)) :
    chunk_text text cs ov fuel = chunk_text text cs ov fuel
    ∧ prepare_brochure_for_indexing vid cs ov fuel bt =
        prepare_brochure_for_indexing vid cs ov fuel bt
    ∧ (prepareEntries vid lang cks).map (fun e => e.text) = cks
    ∧ (prepareEntries vid lang cks).map (fun e => e.chunk_id) =
        (List.range cks.length).map (mkChunkKey vid lang)
    ∧ (∀ out, prepare_brochure_for_indexing vid cs ov fuel bt = some out →
        ∀ e ∈ out, e.vote_id = vid ∧
          e.chunk_id = mkChunkKey vid e.language e.chunk_index) :=
  ⟨rfl, rfl, prepareEntries_map_text vid lang cks,
   prepareEntries_map_key vid lang cks,
   fun _ h e he => mem_prepare_brochure h e he⟩

/-- C8 witness: indexing the sample brochure reproduces the key
`"v1_de_1"` for the middle chunk. -/
theorem C8_chunking_determinism_and_keys_witness :
    sampleEntry.vote_id = "v1"
    ∧ sampleEntry.chunk_id =
        mkChunkKey "v1" sampleEntry.language sampleEntry.chunk_index :=
  (C8_chunking_determinism_and_keys "v1" "de" 5 1 30 [("de", t5Text)]
    t5Text []).2.2.2.2 sampleOut (by decide) sampleEntry (by decide)

/-- C9: the assembler returns the sentinel string on an empty context list,
and on a query the store matches nowhere (empty results or a raised call
for every language), `query_with_context` returns the well-formed result
with zero contexts, the sentinel text and empty metadata. -/
theorem C9_empty_input_safety (store : VectorStore) (db : Database)
    (q lang : String) (k : Nat) (inc : Bool) :
    format_context_for_llm [] = noInfoSentinel
    ∧ ((∀ l n, store q l n = some [] ∨ store q l n = none) →
        query_with_context store db q lang k inc =
          { query := q, language := lang, contexts := []
            formatted_context := noInfoSentinel
            initiative_metadata := [], num_contexts := 0 }) := by
  refine ⟨rfl, ?_⟩
  intro hstore
  have hret : ∀ l n θ, retrieve_context store q l n θ = [] := by
    intro l n θ
    unfold retrieve_context
    rcases hstore l n with h | h
    · rw [h]
      rfl
    · rw [h]
  have hfb : retrieve_with_fallback store q lang k = [] := by
    rw [retrieve_with_fallback_eq, hret lang k 0]
    rw [fallbackLoop_of_empty _ _ (fun l _ n => hret l n 0)]
    simp
  simp [query_with_context, hfb, format_context_for_llm, noInfoSentinel]

/-- C9 witness: the empty-result store yields the sentinel result. -/
theorem C9_empty_input_safety_witness :
    query_with_context storeEmptyRes none "leer" "de" 5 true =
      { query := "leer", language := "de", contexts := []
        formatted_context := noInfoSentinel
        initiative_metadata := [], num_contexts := 0 } :=
  (C9_empty_input_safety storeEmptyRes none "leer" "de" 5 true).2
    (fun _ _ => Or.inl rfl)

/-- C10: the formatted context of `query_with_context` is a function of the
retrieved contexts alone: two runs with the same vector store but different
metadata stores and different `include_metadata` flags produce identical
formatted text, which equals the assembler applied to the retrieval
result — the enriched metadata fields are never rendered into it. -/
theorem C10_formatted_context_noninterference (store : VectorStore)
    (db₁ db₂ : Database) (q lang : String) (k : Nat) (inc₁ inc₂ : Bool) :
    (query_with_context store db₁ q lang k inc₁).formatted_context =
      (query_with_context store db₂ q lang k inc₂).formatted_context
    ∧ (query_with_context store db₁ q lang k inc₁).formatted_context =
        format_context_for_llm (retrieve_with_fallback store q lang k) :=
  ⟨rfl, rfl⟩

end SwissVot
